import Mathlib

/-!
Shallow embedding of `src/apps-script-backend.js`, the Google Apps Script
backend of the report-card grade entry system.

The spreadsheet behind `SpreadsheetApp` is modelled as the list of its data
rows; `getOrCreateSheet`/`setupSheetHeaders` guarantee that row 1 of the
physical sheet is always the header row `getHeaders`, so `getDataRange()
.getValues()` is modelled as `getHeaders` (as cells) consed onto the data
rows.  Cell values are strings, numbers (modelled as integers) or JavaScript
`undefined` (which the script stores when it pushes an absent field
directly).  Each function of the script becomes a Lean function of the same
name over this state; functions that can throw return `Option`.
-/

namespace GradesReport

/-- A spreadsheet cell value as the script produces it: a string, a number
(modelled as an integer), or JavaScript `undefined`. -/
inductive Cell where
  | str (s : String)
  | num (n : Int)
  | undef
deriving DecidableEq, Repr

/-- A physical row: an ordered list of cells. -/
abbrev Row := List Cell

/-- JavaScript strict equality `===` on the cell values occurring in this
program: values of different runtime type are never equal, values of the same
type compare structurally (`undefined === undefined` is `true`). -/
def jsStrictEq (a b : Cell) : Bool := decide (a = b)

/-- JavaScript `x || d` for a possibly-absent string `x`: `undefined` and the
empty string are falsy and give the default `d`. -/
def jsOrStr (x : Option String) (d : String) : String :=
  match x with
  | none => d
  | some s => if s = "" then d else s

/-- JavaScript `v || ''` for a possibly-absent number: `undefined` and `0`
are falsy and give the empty string; every other number is kept. -/
def jsNumOrEmpty (v : Option Int) : Cell :=
  match v with
  | none => Cell.str ""
  | some n => if n = 0 then Cell.str "" else Cell.num n

/-- A possibly-absent string pushed raw into a row: `undefined` when absent. -/
def cellOf (x : Option String) : Cell :=
  match x with
  | none => Cell.undef
  | some s => Cell.str s

/-- JavaScript truthiness test `!x` for a possibly-absent string. -/
def jsFalsyStr (x : Option String) : Bool :=
  match x with
  | none => true
  | some s => decide (s = "")

/-- The `LEARNING_SKILLS` constant of the script, in declared order. -/
def LEARNING_SKILLS : List String :=
  ["Responsibility", "Organization", "Independent Work",
   "Collaboration", "Initiative", "Self-Regulation"]

/-- `getHeaders()`: the fixed 8 columns, then one column per learning skill,
then `Comment` and `Last Modified`. -/
def getHeaders : List String :=
  ["Timestamp", "Teacher Email", "Teacher Name", "Course", "Student Name",
   "Percentage Mark", "Classes Missed", "Times Late"]
  ++ LEARNING_SKILLS ++ ["Comment", "Last Modified"]

/-- An inbound submission as decoded from the POST body.  Every field may be
absent (`none` models a missing JSON key / `undefined`).  The numeric fields
are modelled as integers; `skills` is the JavaScript object
`{skillName: rating}` as an association list. -/
structure SubmitData where
  timestamp : Option String
  teacher : Option String
  teacherName : Option String
  course : Option String
  student : Option String
  percentageMark : Option Int
  classesMissed : Option Int
  timesLate : Option Int
  skills : Option (List (String × String))
  comment : Option String
  grade : Option String
deriving DecidableEq, Repr

/-- The `rowData` array built inside `saveGradeEntry`: the 8 fixed cells
(with `||` defaulting as in the script), the skill ratings in
`LEARNING_SKILLS` order (`data.skills[skill] || ''`), the raw comment, and
the `Last Modified` timestamp, stamped with the current time `now`. -/
def rowData (d : SubmitData) (now : String) : Row :=
  Cell.str (jsOrStr d.timestamp now) ::
  cellOf d.teacher ::
  cellOf d.teacherName ::
  Cell.str (jsOrStr d.course "") ::
  cellOf d.student ::
  jsNumOrEmpty d.percentageMark ::
  jsNumOrEmpty d.classesMissed ::
  jsNumOrEmpty d.timesLate ::
  (LEARNING_SKILLS.map (fun sk => Cell.str (jsOrStr ((d.skills.getD []).lookup sk) "")) ++
   [cellOf d.comment, Cell.str now])

/-- The per-row test of `findStudentRow`: the row's `Student Name` cell
(index 4) strictly equals the searched student and its `Course` cell
(index 3) strictly equals the searched course. -/
def keyMatches (r : Row) (sn cn : Cell) : Bool :=
  jsStrictEq (r.getD 4 Cell.undef) sn && jsStrictEq (r.getD 3 Cell.undef) cn

/-- Scan loop of `findStudentRow` over the data rows.  The accumulator `i` is
the 0-based data-row index; a hit at data index `i` is reported as the
1-based full-sheet row number `i + 2` (row 1 is the header), `0` means not
found. -/
def findFrom (sn cn : Cell) : List Row → Nat → Nat
  | [], _ => 0
  | r :: rs, i =>
    if keyMatches r sn cn then i + 2 else findFrom sn cn rs (i + 1)

/-- `findStudentRow(sheet, studentName, courseName)`: linear scan from the
first data row, returning the 1-based sheet row of the first row whose
student and course cells strictly equal the arguments, or `0`. -/
def findStudentRow (rows : List Row) (studentName courseName : Cell) : Nat :=
  findFrom studentName courseName rows 0

/-- The success envelope `saveGradeEntry` returns. -/
structure SaveResult where
  success : Bool
  action : String
  student : Option String
  course : Option String
deriving DecidableEq, Repr

/-- `getRange(row, 1, 1, rd.length).setValues([rd])` on a stored row:
the first `rd.length` cells are overwritten, any cells beyond that range
are untouched (a schema-aligned row of the same length is fully replaced). -/
def setValuesRow (old rd : Row) : Row := rd ++ old.drop rd.length

/-- `saveGradeEntry(data)`: look the (student, course) pair up with
`findStudentRow`, build `rowData`, then either overwrite the found sheet row
in place (`setValues`, reported as `updated`) or append a new row
(`appendRow`, reported as `created`).  When `data.skills` is `undefined` the
script throws a `TypeError` at `data.skills[skill]` before any write, which
is modelled as `none` (the sheet is unchanged in that case). -/
def saveGradeEntry (d : SubmitData) (rows : List Row) (now : String) :
    Option (SaveResult × List Row) :=
  match d.skills with
  | none => none
  | some _ =>
    let existingRow := findStudentRow rows (cellOf d.student) (cellOf d.course)
    let rd := rowData d now
    if 0 < existingRow then
      some ({ success := true, action := "updated", student := d.student, course := d.course },
            rows.set (existingRow - 2) (setValuesRow (rows.getD (existingRow - 2) []) rd))
    else
      some ({ success := true, action := "created", student := d.student, course := d.course },
            rows ++ [rd])

/-- The response `doPost` serializes. -/
inductive PostResponse where
  | ok (res : SaveResult)
  | err (msg : String)
deriving DecidableEq, Repr

/-- `doPost(e)`: decode the body (taken here as already parsed) and call
`saveGradeEntry`; a thrown error is caught and shaped into the failure
envelope, leaving the sheet as it was.  Note that `doPost` never invokes
`validateData`. -/
def doPost (d : SubmitData) (rows : List Row) (now : String) :
    PostResponse × List Row :=
  match saveGradeEntry d rows now with
  | some (res, rows2) => (PostResponse.ok res, rows2)
  | none => (PostResponse.err "TypeError", rows)

/-- Sequential application of `doPost` to a list of (submission, time)
pairs, threading the sheet state. -/
def postAll : List (SubmitData × String) → List Row → List Row
  | [], rows => rows
  | (d, now) :: rest, rows => postAll rest (doPost d rows now).2

/-- `s.toLowerCase()` (character-wise lowering, as on the ASCII headers). -/
def jsToLowerCase (s : String) : String := String.mk (s.data.map Char.toLower)

/-- `s.replace(/ /g, '_')`: every space becomes an underscore. -/
def replaceSpaces (s : String) : String :=
  String.mk (s.data.map (fun ch => if ch = ' ' then '_' else ch))

/-- Key generation of `rowToObject`: `header.toLowerCase().replace(/ /g, '_')`. -/
def toKey (h : String) : String := replaceSpaces (jsToLowerCase h)

/-- The object `rowToObject` builds: plain fields keyed by the lowered
header names, plus the nested `skills` object keyed by skill names. -/
structure EntryObj where
  fields : List (String × Cell)
  skills : List (String × Cell)
deriving DecidableEq, Repr

/-- Loop of `rowToObject` over the headers with running column index `i`;
`row[i]` past the end of the row is `undefined`. -/
def rowToObjectAux (row : List Cell) : List String → Nat →
    List (String × Cell) × List (String × Cell)
  | [], _ => ([], [])
  | h :: hs, i =>
    let rest := rowToObjectAux row hs (i + 1)
    if LEARNING_SKILLS.contains h then
      (rest.1, (h, row.getD i Cell.undef) :: rest.2)
    else
      ((toKey h, row.getD i Cell.undef) :: rest.1, rest.2)

/-- `rowToObject(headers, row)`: group the learning-skill columns into a
`skills` sub-object, store every other column under its lowered key. -/
def rowToObject (headers : List String) (row : List Cell) : EntryObj :=
  ⟨(rowToObjectAux row headers 0).1, (rowToObjectAux row headers 0).2⟩

/-- Property read `entry.k` on the flat part: `undefined` when absent. -/
def getField (e : EntryObj) (k : String) : Cell :=
  match e.fields.lookup k with
  | some c => c
  | none => Cell.undef

/-- Property read `entry.skills[k]`: `undefined` when absent. -/
def getSkill (e : EntryObj) (k : String) : Cell :=
  match e.skills.lookup k with
  | some c => c
  | none => Cell.undef

/-- `getAllEntries()`: every data row mapped through `rowToObject` with the
sheet's header row (which `getOrCreateSheet` keeps equal to `getHeaders`);
an empty store yields the empty list. -/
def getAllEntries (rows : List Row) : List EntryObj :=
  rows.map (fun r => rowToObject getHeaders r)

/-- `getEntriesByStudent(studentName)`: keep the entries whose `student`
property strictly equals the argument. -/
def getEntriesByStudent (rows : List Row) (studentName : String) : List EntryObj :=
  (getAllEntries rows).filter (fun e => jsStrictEq (getField e "student") (Cell.str studentName))

/-- `getEntriesByTeacher(teacherEmail)`: keep the entries whose
`teacher_email` property strictly equals the argument. -/
def getEntriesByTeacher (rows : List Row) (teacherEmail : String) : List EntryObj :=
  (getAllEntries rows).filter (fun e => jsStrictEq (getField e "teacher_email") (Cell.str teacherEmail))

/-- `clearAllData()`: delete every row below the header. -/
def clearAllData (_ : List Row) : List Row := []

/-- JavaScript `String(cell)` for the cell values of this model. -/
def cellToString (c : Cell) : String :=
  match c with
  | Cell.str s => s
  | Cell.num n => toString n
  | Cell.undef => "undefined"

/-- `str.includes(ch)` for a single character. -/
def jsIncludesChar : List Char → Char → Bool
  | [], _ => false
  | c :: cs, ch => c == ch || jsIncludesChar cs ch

/-- `str.replace(/"/g, '""')`: every double quote doubled. -/
def escQuotes : List Char → List Char
  | [] => []
  | c :: cs => if c = '"' then '"' :: '"' :: escQuotes cs else c :: escQuotes cs

/-- The per-cell mapping inside `exportToCsv`: stringify, and if the string
contains a comma, a double quote or a newline, wrap it in double quotes with
the inner double quotes doubled. -/
def escapeCell (c : Cell) : String :=
  let s := cellToString c
  if jsIncludesChar s.data ',' || jsIncludesChar s.data '"' || jsIncludesChar s.data '\n' then
    "\"" ++ String.mk (escQuotes s.data) ++ "\""
  else s

/-- `arr.join(',')` on a list of strings. -/
def joinComma : List String → String
  | [] => ""
  | [x] => x
  | x :: xs => x ++ "," ++ joinComma xs

/-- `sheet.getDataRange().getValues()`: the header row followed by the data
rows. -/
def fullTable (rows : List Row) : List Row :=
  (getHeaders.map Cell.str) :: rows

/-- `exportToCsv()`: fold over the whole table (header included),
accumulating each row as its escaped cells joined by commas plus a
terminating newline. -/
def exportToCsv (rows : List Row) : String :=
  (fullTable rows).foldl (fun csv row => csv ++ joinComma (row.map escapeCell) ++ "\n") ""

/-- Modelled from the spec's escaping rule (for comparison with the code):
any cell containing a comma, a double-quote, or a newline is wrapped in
double quotes, with internal double quotes doubled; every other cell is
emitted verbatim. -/
def specEscape (s : String) : String :=
  if s.data.any (fun ch => ch == ',' || ch == '"' || ch == '\n') then
    "\"" ++ String.mk ((s.data.map (fun ch => if ch = '"' then ['"', '"'] else [ch])).flatten) ++ "\""
  else s

/-- Modelled from the spec's rendering rule (for comparison with the code):
each row is rendered comma-joined in order and newline-terminated, so the
output ends with a trailing newline after the last row. -/
def csvSpecRender : List Row → String
  | [] => ""
  | row :: rest =>
    joinComma (row.map (fun c => specEscape (cellToString c))) ++ "\n" ++ csvSpecRender rest

/-- The summary object `generateSummaryReport` returns.  The average is an
`Option Nat`: `none` models the JavaScript `NaN` that arises when a comment
cell holds a nonzero number (then `(cell || '').length` is `undefined` and
the running total becomes `NaN`). -/
structure Summary where
  totalEntries : Nat
  byTeacher : List (String × Nat)
  byGrade : List (String × Nat)
  averageCommentLength : Option Nat
deriving DecidableEq, Repr

/-- JavaScript property-key coercion `obj[c]`: the cell printed as a string
(`undefined` indexes under the key `"undefined"`). -/
def keyOf (c : Cell) : String := cellToString c

/-- `if (!m[k]) m[k] = 0; m[k]++` on a counter object. -/
def bump : List (String × Nat) → String → List (String × Nat)
  | [], k => [(k, 1)]
  | (k2, n) :: rest, k =>
    if k2 = k then (k2, n + 1) :: rest else (k2, n) :: bump rest k

/-- `(cell || '').length`: a string gives its length, `undefined` and `0`
are falsy and give `''.length = 0`; a nonzero number has no `.length`, which
poisons the sum (`none` = `NaN`). -/
def jsCommentLen (c : Cell) : Option Nat :=
  match c with
  | Cell.str s => some s.length
  | Cell.undef => some 0
  | Cell.num n => if n = 0 then some 0 else none

/-- `totalCommentLength += (entry.comment || '').length`, with `NaN`
(= `none`) absorbing. -/
def addLen (acc : Option Nat) (c : Cell) : Option Nat :=
  match acc, jsCommentLen c with
  | some a, some b => some (a + b)
  | _, _ => none

/-- `Math.round(t / n)` for natural `t` and positive `n`:
`floor(t/n + 1/2) = (2t + n) / (2n)` (ties round up, as in JavaScript). -/
def jsMathRoundDiv (t n : Nat) : Nat := (2 * t + n) / (2 * n)

/-- `generateSummaryReport()`: count of entries, counts grouped by the
`teacher_name` and `grade` properties, and the average comment length
(`Math.round`, `0` for an empty store). -/
def generateSummaryReport (rows : List Row) : Summary :=
  let entries := getAllEntries rows
  let total := entries.foldl (fun acc e => addLen acc (getField e "comment")) (some 0)
  { totalEntries := entries.length
    byTeacher := entries.foldl (fun m e => bump m (keyOf (getField e "teacher_name"))) []
    byGrade := entries.foldl (fun m e => bump m (keyOf (getField e "grade"))) []
    averageCommentLength :=
      if 0 < entries.length then total.map (fun t => jsMathRoundDiv t entries.length)
      else some 0 }

/-- Modelled from the spec's words (for comparison with the code): the
length of a comment cell with an absent comment counting as length 0. -/
def specCommentLen (c : Cell) : Nat :=
  match c with
  | Cell.str s => s.length
  | _ => 0

/-- A comment cell on which the script's `(cell || '').length` is a number
(every cell `saveGradeEntry` ever writes there satisfies this). -/
def commentCellOk (c : Cell) : Bool :=
  match c with
  | Cell.num n => decide (n = 0)
  | _ => true

/-- Error pushes of `validateData` before its comment checks, in program
order: teacher, student, grade, then the skills block (a general error when
`data.skills` is absent, otherwise one error per unrated learning skill). -/
def preErrors (d : SubmitData) : List String :=
  (if jsFalsyStr d.teacher then ["Teacher email is required"] else [])
  ++ (if jsFalsyStr d.student then ["Student name is required"] else [])
  ++ (if jsFalsyStr d.grade then ["Grade is required"] else [])
  ++ (match d.skills with
      | none => ["Learning skills are required"]
      | some sk =>
        LEARNING_SKILLS.foldr
          (fun skill acc =>
            (if jsFalsyStr (sk.lookup skill) then [skill ++ " rating is required"] else []) ++ acc)
          [])

/-- Comment checks of `validateData`: the presence check first; the length
check runs only when a comment is present and nonempty. -/
def commentErrors (d : SubmitData) : List String :=
  match d.comment with
  | none => ["Comment is required"]
  | some cm =>
    if cm = "" then ["Comment is required"]
    else if 500 < cm.length then ["Comment must be 500 characters or less"]
    else []

/-- `validateData(data)`: all error messages, in push order. -/
def validateData (d : SubmitData) : List String := preErrors d ++ commentErrors d

/-- The complete list of messages `validateData` can push before its comment
checks. -/
def preErrorPool : List String :=
  ["Teacher email is required", "Student name is required", "Grade is required",
   "Learning skills are required"]
  ++ LEARNING_SKILLS.map (fun skill => skill ++ " rating is required")

/-- Replace-first-match-else-append, the effective state transformation of
`saveGradeEntry` (proved below to coincide with its find-then-set/append
sequence); the replacement goes through the `setValues` range write. -/
def upsert (p : Row → Bool) (rd : Row) : List Row → List Row
  | [] => [rd]
  | r :: rs => if p r then setValuesRow r rd :: rs else r :: upsert p rd rs

/-- The fully rated skills object used by the sample submissions (the same
ratings as the script's `testSaveEntry`). -/
def sampleSkills : List (String × String) :=
  [("Responsibility", "Excellent"), ("Organization", "Good"),
   ("Independent Work", "Excellent"), ("Collaboration", "Satisfactory"),
   ("Initiative", "Good"), ("Self-Regulation", "Excellent")]

/-- A well-formed sample submission (modelled on `testSaveEntry`). -/
def sampleData : SubmitData :=
  { timestamp := some "2024-01-01T00:00:00Z"
    teacher := some "teacher1@school.edu"
    teacherName := some "Ms. Johnson"
    course := some "Math 7A"
    student := some "Alice"
    percentageMark := some 85
    classesMissed := some 2
    timesLate := some 1
    skills := some sampleSkills
    comment := some "Great progress this term."
    grade := some "A" }

/-- The sample submission with all three optional numeric fields recorded
as zero. -/
def sampleZero : SubmitData :=
  { sampleData with percentageMark := some 0, classesMissed := some 0, timesLate := some 0 }

/-- The sample submission with all three optional numeric fields absent. -/
def sampleAbsentNums : SubmitData :=
  { sampleData with percentageMark := none, classesMissed := none, timesLate := none }

/-! Helper lemmas about the scan/write sequence of `saveGradeEntry`. -/

theorem jsOrStr_some_empty (c : String) : jsOrStr (some c) "" = c := by
  by_cases h : c = "" <;> simp [jsOrStr, h]

theorem jsOrStr_some_of_ne (s d : String) (h : s ≠ "") : jsOrStr (some s) d = s := by
  simp [jsOrStr, h]

theorem findFrom_succ (sn cn : Cell) (rows : List Row) (i : Nat) :
    findFrom sn cn rows (i + 1) =
      if findFrom sn cn rows i = 0 then 0 else findFrom sn cn rows i + 1 := by
  induction rows generalizing i with
  | nil => simp [findFrom]
  | cons r rs ih =>
    by_cases h : keyMatches r sn cn = true
    · simp [findFrom, h]
    · simp only [findFrom, h, Bool.false_eq_true, if_false, reduceIte]
      exact ih (i + 1)

theorem findFrom_eq_zero_iff (sn cn : Cell) (rows : List Row) (i : Nat) :
    findFrom sn cn rows i = 0 ↔ ∀ r ∈ rows, keyMatches r sn cn = false := by
  induction rows generalizing i with
  | nil => simp [findFrom]
  | cons r rs ih =>
    by_cases h : keyMatches r sn cn = true
    · simp [findFrom, h]
    · simp only [findFrom, h, Bool.false_eq_true, if_false, List.mem_cons]
      rw [ih (i + 1)]
      constructor
      · rintro hall r2 (rfl | hr2)
        · simpa using h
        · exact hall r2 hr2
      · intro hall r2 hr2
        exact hall r2 (Or.inr hr2)

theorem findFrom_two_le (sn cn : Cell) (rows : List Row) :
    findFrom sn cn rows 0 = 0 ∨ 2 ≤ findFrom sn cn rows 0 := by
  suffices h : ∀ i, findFrom sn cn rows i = 0 ∨ i + 2 ≤ findFrom sn cn rows i by
    exact h 0
  induction rows with
  | nil => intro i; left; simp [findFrom]
  | cons r rs ih =>
    intro i
    by_cases h : keyMatches r sn cn = true
    · right; simp [findFrom, h]
    · simp only [findFrom, h, Bool.false_eq_true, if_false]
      rcases ih (i + 1) with h0 | hle
      · left; exact h0
      · right; omega

theorem findFrom_set_upsert (sn cn : Cell) (rd : Row) (rows : List Row) :
    (if 0 < findFrom sn cn rows 0 then
       rows.set (findFrom sn cn rows 0 - 2)
         (setValuesRow (rows.getD (findFrom sn cn rows 0 - 2) []) rd)
     else rows ++ [rd]) = upsert (fun r => keyMatches r sn cn) rd rows := by
  induction rows with
  | nil => simp [findFrom, upsert]
  | cons r rs ih =>
    by_cases h : keyMatches r sn cn = true
    · simp [findFrom, h, upsert]
    · have hstep : findFrom sn cn (r :: rs) 0 = findFrom sn cn rs 1 := by
        simp [findFrom, h]
      rw [hstep, findFrom_succ sn cn rs 0]
      by_cases hz : findFrom sn cn rs 0 = 0
      · simp only [hz, if_true, reduceIte, Nat.lt_irrefl, upsert, h, Bool.false_eq_true,
          if_false, List.cons_append]
        rw [← ih]
        simp [hz]
      · rcases findFrom_two_le sn cn rs with h0 | hle
        · exact absurd h0 hz
        · simp only [hz, if_false, reduceIte, upsert, h, Bool.false_eq_true]
          have hpos : 0 < findFrom sn cn rs 0 + 1 := by omega
          simp only [hpos, if_true, reduceIte]
          obtain ⟨k, hk⟩ : ∃ k, findFrom sn cn rs 0 = k + 2 := ⟨findFrom sn cn rs 0 - 2, by omega⟩
          rw [← ih]
          have hpos2 : 0 < findFrom sn cn rs 0 := by omega
          simp only [hpos2, if_true, reduceIte, hk]
          simp [List.set, List.getD_cons_succ]

theorem saveGradeEntry_eq (d : SubmitData) (rows : List Row) (now : String)
    (sk : List (String × String)) (hsk : d.skills = some sk) :
    saveGradeEntry d rows now =
      some ({ success := true,
              action := if rows.any (fun r => keyMatches r (cellOf d.student) (cellOf d.course))
                        then "updated" else "created",
              student := d.student, course := d.course },
            upsert (fun r => keyMatches r (cellOf d.student) (cellOf d.course))
              (rowData d now) rows) := by
  unfold saveGradeEntry
  rw [hsk]
  simp only [findStudentRow]
  by_cases hz : findFrom (cellOf d.student) (cellOf d.course) rows 0 = 0
  · have hall := (findFrom_eq_zero_iff (cellOf d.student) (cellOf d.course) rows 0).mp hz
    have hany : rows.any (fun r => keyMatches r (cellOf d.student) (cellOf d.course)) = false := by
      simp only [List.any_eq_false]
      intro r hr
      simp [hall r hr]
    rw [← findFrom_set_upsert (cellOf d.student) (cellOf d.course) (rowData d now) rows]
    simp [hz, hany]
  · have hpos : 0 < findFrom (cellOf d.student) (cellOf d.course) rows 0 := by omega
    have hany : rows.any (fun r => keyMatches r (cellOf d.student) (cellOf d.course)) = true := by
      rw [List.any_eq_true]
      by_contra hno
      push_neg at hno
      have hall : ∀ r ∈ rows, keyMatches r (cellOf d.student) (cellOf d.course) = false := by
        intro r hr
        have := hno r hr
        simpa using this
      exact hz ((findFrom_eq_zero_iff _ _ rows 0).mpr hall)
    rw [← findFrom_set_upsert (cellOf d.student) (cellOf d.course) (rowData d now) rows]
    simp [hpos, hany]

theorem upsert_filter_eq (p : Row → Bool) (rd : Row) (rows : List Row)
    (hp : p rd = true) (hc : (rows.filter p).length ≤ 1)
    (hw : ∀ r ∈ rows, p r = true → setValuesRow r rd = rd) :
    (upsert p rd rows).filter p = [rd] := by
  induction rows with
  | nil => simp [upsert, hp]
  | cons r rs ih =>
    by_cases h : p r = true
    · have hnil : rs.filter p = [] := by
        have hlen1 : (List.filter p (r :: rs)).length = (rs.filter p).length + 1 := by
          simp [List.filter_cons, h]
        have hlen : (rs.filter p).length = 0 := by omega
        exact List.eq_nil_of_length_eq_zero hlen
      have hsv : setValuesRow r rd = rd := hw r (by simp) h
      simp [upsert, h, hsv, List.filter, hp, hnil]
    · have hc2 : (rs.filter p).length ≤ 1 := by
        have : List.filter p (r :: rs) = rs.filter p := by
          simp [List.filter_cons, h]
        rw [this] at hc
        exact hc
      simp only [upsert, h, Bool.false_eq_true, if_false]
      rw [List.filter_cons]
      simp only [h, Bool.false_eq_true, if_false]
      exact ih hc2 (fun r2 hr2 => hw r2 (by simp [hr2]))

theorem mem_upsert (p : Row → Bool) (rd r : Row) (rows : List Row)
    (h : r ∈ upsert p rd rows) :
    r ∈ rows ∨ r = rd ∨ ∃ old ∈ rows, r = setValuesRow old rd := by
  induction rows with
  | nil =>
    simp [upsert] at h
    right; left; exact h
  | cons r2 rs ih =>
    by_cases h2 : p r2 = true
    · simp only [upsert, h2, if_true, reduceIte, List.mem_cons] at h
      rcases h with rfl | h
      · right; right; exact ⟨r2, by simp, rfl⟩
      · left; simp [h]
    · simp only [upsert, h2, Bool.false_eq_true, if_false, List.mem_cons] at h
      rcases h with rfl | h
      · left; simp
      · rcases ih h with hm | rfl | ⟨old, hold, rfl⟩
        · left; simp [hm]
        · right; left; rfl
        · right; right; exact ⟨old, by simp [hold], rfl⟩

theorem upsert_of_no_match (p : Row → Bool) (rd : Row) (rows : List Row)
    (h : ∀ r ∈ rows, p r = false) : upsert p rd rows = rows ++ [rd] := by
  induction rows with
  | nil => simp [upsert]
  | cons r rs ih =>
    have hr : p r = false := h r (by simp)
    simp only [upsert, hr, Bool.false_eq_true, if_false, List.cons_append, List.cons.injEq,
      true_and]
    exact ih (fun r2 hr2 => h r2 (by simp [hr2]))

theorem setValuesRow_of_le (r rd : Row) (h : r.length ≤ rd.length) : setValuesRow r rd = rd := by
  unfold setValuesRow
  rw [List.drop_eq_nil_of_le h, List.append_nil]

theorem rowData_keyMatches (d : SubmitData) (now : String) (s c : String)
    (hs : d.student = some s) (hc : d.course = some c) :
    keyMatches (rowData d now) (Cell.str s) (Cell.str c) = true := by
  simp [keyMatches, rowData, hs, hc, cellOf, jsStrictEq, jsOrStr_some_empty]

theorem doPost_snd_eq_upsert (d : SubmitData) (rows : List Row) (now : String)
    (s c : String) (sk : List (String × String))
    (hs : d.student = some s) (hc : d.course = some c) (hsk : d.skills = some sk) :
    (doPost d rows now).2 =
      upsert (fun r => keyMatches r (Cell.str s) (Cell.str c)) (rowData d now) rows := by
  unfold doPost
  rw [saveGradeEntry_eq d rows now sk hsk]
  simp [hs, hc, cellOf]

/-- C1: submitting the same (student, course) pair N ≥ 1 times through
`saveGradeEntry` (each submission carrying that pair and a skills object)
against a store of schema-width rows holding at most one row for that pair
leaves exactly one data row for the pair, whose contents are exactly the
row built from the last submission, with the `Last Modified` cell
(column 15) refreshed to the last submission's time. -/
theorem saveGradeEntry_idempotent_key
    (s c : String) (ds : List (SubmitData × String)) (dN : SubmitData) (nowN : String)
    (rows : List Row)
    (hall : ∀ p ∈ ds ++ [(dN, nowN)],
      p.1.student = some s ∧ p.1.course = some c ∧ p.1.skills ≠ none)
    (hkey : (rows.filter (fun r => keyMatches r (Cell.str s) (Cell.str c))).length ≤ 1)
    (hwidth : ∀ r ∈ rows, r.length ≤ 16) :
    (postAll (ds ++ [(dN, nowN)]) rows).filter
        (fun r => keyMatches r (Cell.str s) (Cell.str c)) = [rowData dN nowN]
    ∧ (rowData dN nowN).getD 15 Cell.undef = Cell.str nowN := by
  refine ⟨?_, rfl⟩
  induction ds generalizing rows with
  | nil =>
    obtain ⟨hs, hc, hsk⟩ := hall (dN, nowN) (by simp)
    obtain ⟨sk, hsk2⟩ := Option.ne_none_iff_exists'.mp hsk
    simp only [List.nil_append, postAll]
    rw [doPost_snd_eq_upsert dN rows nowN s c sk hs hc hsk2]
    exact upsert_filter_eq _ _ rows (rowData_keyMatches dN nowN s c hs hc) hkey
      (fun r hr _ => setValuesRow_of_le r _ (hwidth r hr))
  | cons hd tl ih =>
    obtain ⟨d0, now0⟩ := hd
    obtain ⟨hs, hc, hsk⟩ := hall (d0, now0) (by simp)
    obtain ⟨sk, hsk2⟩ := Option.ne_none_iff_exists'.mp hsk
    have hstep := doPost_snd_eq_upsert d0 rows now0 s c sk hs hc hsk2
    have hfil : ((doPost d0 rows now0).2).filter
        (fun r => keyMatches r (Cell.str s) (Cell.str c)) = [rowData d0 now0] := by
      rw [hstep]
      exact upsert_filter_eq _ _ rows (rowData_keyMatches d0 now0 s c hs hc) hkey
        (fun r hr _ => setValuesRow_of_le r _ (hwidth r hr))
    have hkey2 : (((doPost d0 rows now0).2).filter
        (fun r => keyMatches r (Cell.str s) (Cell.str c))).length ≤ 1 := by
      rw [hfil]; simp
    have hwidth2 : ∀ r ∈ (doPost d0 rows now0).2, r.length ≤ 16 := by
      rw [hstep]
      intro r hr
      rcases mem_upsert _ _ _ _ hr with hm | rfl | ⟨old, hold, rfl⟩
      · exact hwidth r hm
      · exact Nat.le_refl _
      · rw [setValuesRow_of_le old (rowData d0 now0) (hwidth old hold)]
        exact Nat.le_refl _
    have hall2 : ∀ p ∈ tl ++ [(dN, nowN)],
        p.1.student = some s ∧ p.1.course = some c ∧ p.1.skills ≠ none := by
      intro p hp
      exact hall p (by simp only [List.cons_append, List.mem_cons]; right; exact hp)
    simpa only [List.cons_append, postAll] using
      ih (doPost d0 rows now0).2 hall2 hkey2 hwidth2

/-- Witness for C1 at two concrete submissions for (Alice, Math 7A) on an
empty store: one row remains and it is the second submission's row. -/
theorem saveGradeEntry_idempotent_key_witness :
    (∀ p ∈ ([(({ sampleData with comment := some "first version" } : SubmitData), "t1")] ++
        [(sampleData, "t2")]),
      p.1.student = some "Alice" ∧ p.1.course = some "Math 7A" ∧ p.1.skills ≠ none)
    ∧ (([] : List Row).filter
        (fun r => keyMatches r (Cell.str "Alice") (Cell.str "Math 7A"))).length ≤ 1
    ∧ (postAll ([(({ sampleData with comment := some "first version" } : SubmitData), "t1")] ++
        [(sampleData, "t2")]) []).filter
        (fun r => keyMatches r (Cell.str "Alice") (Cell.str "Math 7A")) =
        [rowData sampleData "t2"]
    ∧ (rowData sampleData "t2").getD 15 Cell.undef = Cell.str "t2" := by
  have h := saveGradeEntry_idempotent_key "Alice" "Math 7A"
    [(({ sampleData with comment := some "first version" } : SubmitData), "t1")]
    sampleData "t2" [] (by decide) (by decide) (by decide)
  exact ⟨by decide, by decide, h.1, h.2⟩

/-- C9: a submission with no `course` field stores the empty string in the
Course cell but hands the absent value itself to `findStudentRow`, whose
strict comparison never matches a stored string cell; so every such
submission appends and reports `created`, and two successive such
submissions for the same student leave two data rows for that student. -/
theorem course_absent_always_creates
    (d d2 : SubmitData) (rows : List Row) (now now2 : String) (s : String)
    (hs : d.student = some s) (hcourse : d.course = none) (hsk : d.skills ≠ none)
    (hs2 : d2.student = some s) (hcourse2 : d2.course = none) (hsk2 : d2.skills ≠ none)
    (hrows : ∀ r ∈ rows, ∃ cs, r.getD 3 Cell.undef = Cell.str cs) :
    (∃ res, saveGradeEntry d rows now = some (res, rows ++ [rowData d now])
      ∧ res.action = "created")
    ∧ (∃ res2, saveGradeEntry d2 (rows ++ [rowData d now]) now2 =
          some (res2, rows ++ [rowData d now, rowData d2 now2])
        ∧ res2.action = "created")
    ∧ (rowData d now).getD 3 Cell.undef = Cell.str ""
    ∧ (rowData d now).getD 4 Cell.undef = Cell.str s
    ∧ (rowData d2 now2).getD 4 Cell.undef = Cell.str s := by
  have hnever : ∀ (d3 : SubmitData) (rows3 : List Row),
      d3.course = none → (∀ r ∈ rows3, ∃ cs, r.getD 3 Cell.undef = Cell.str cs) →
      ∀ r ∈ rows3, keyMatches r (cellOf d3.student) (cellOf d3.course) = false := by
    intro d3 rows3 hc3 hrows3 r hr
    obtain ⟨cs, hcs⟩ := hrows3 r hr
    have hno : jsStrictEq (r.getD 3 Cell.undef) (cellOf d3.course) = false := by
      rw [hcs, hc3]; rfl
    simp only [keyMatches]
    rw [hno, Bool.and_false]
  have happ : ∀ (d3 : SubmitData) (rows3 : List Row) (now3 : String)
      (sk3 : List (String × String)), d3.skills = some sk3 → d3.course = none →
      (∀ r ∈ rows3, ∃ cs, r.getD 3 Cell.undef = Cell.str cs) →
      saveGradeEntry d3 rows3 now3 =
        some ({ success := true, action := "created",
                student := d3.student, course := d3.course },
              rows3 ++ [rowData d3 now3]) := by
    intro d3 rows3 now3 sk3 hsk3 hc3 hrows3
    rw [saveGradeEntry_eq d3 rows3 now3 sk3 hsk3]
    have hany : rows3.any
        (fun r => keyMatches r (cellOf d3.student) (cellOf d3.course)) = false := by
      simp only [List.any_eq_false]
      intro r hr
      simp [hnever d3 rows3 hc3 hrows3 r hr]
    rw [upsert_of_no_match _ _ _ (hnever d3 rows3 hc3 hrows3), hany]
    simp
  obtain ⟨sk, hska⟩ := Option.ne_none_iff_exists'.mp hsk
  obtain ⟨sk2, hska2⟩ := Option.ne_none_iff_exists'.mp hsk2
  have hcell : (rowData d now).getD 3 Cell.undef = Cell.str "" := by
    simp [rowData, hcourse, jsOrStr]
  have hrows2 : ∀ r ∈ rows ++ [rowData d now], ∃ cs, r.getD 3 Cell.undef = Cell.str cs := by
    intro r hr
    rcases List.mem_append.mp hr with hr1 | hr2
    · exact hrows r hr1
    · refine ⟨"", ?_⟩
      simp only [List.mem_singleton] at hr2
      rw [hr2]
      exact hcell
  refine ⟨⟨{ success := true, action := "created", student := d.student, course := d.course },
            happ d rows now sk hska hcourse hrows, rfl⟩,
          ⟨{ success := true, action := "created", student := d2.student, course := d2.course },
            ?_, rfl⟩, hcell, ?_, ?_⟩
  · have := happ d2 (rows ++ [rowData d now]) now2 sk2 hska2 hcourse2 hrows2
    simpa [List.append_assoc] using this
  · simp [rowData, hs, cellOf]
  · simp [rowData, hs2, cellOf]

/-- Witness for C9 at two concrete course-less submissions on the empty
store: both report `created` and two rows for the student remain. -/
theorem course_absent_always_creates_witness :
    ((({ sampleData with course := none } : SubmitData).student = some "Alice")
      ∧ (({ sampleData with course := none } : SubmitData).course = none)
      ∧ (({ sampleData with course := none } : SubmitData).skills ≠ none))
    ∧ (∃ res, saveGradeEntry ({ sampleData with course := none } : SubmitData) [] "t1" =
        some (res, [] ++ [rowData ({ sampleData with course := none } : SubmitData) "t1"])
      ∧ res.action = "created")
    ∧ (∃ res2, saveGradeEntry ({ sampleData with course := none } : SubmitData)
          ([] ++ [rowData ({ sampleData with course := none } : SubmitData) "t1"]) "t2" =
        some (res2, [] ++ [rowData ({ sampleData with course := none } : SubmitData) "t1",
                           rowData ({ sampleData with course := none } : SubmitData) "t2"])
      ∧ res2.action = "created") := by
  have h := course_absent_always_creates ({ sampleData with course := none } : SubmitData)
    ({ sampleData with course := none } : SubmitData) [] "t1" "t2" "Alice"
    (by decide) (by decide) (by decide) (by decide) (by decide) (by decide)
    (by intro r hr; exact absurd hr (List.not_mem_nil r))
  exact ⟨⟨by decide, by decide, by decide⟩, h.1, h.2.1⟩

/-- C10: every row `saveGradeEntry` writes, appended or replacing, has
exactly as many cells as the header row of `getHeaders` — 16 with the six
declared skills — so a store of schema-aligned rows stays schema-aligned. -/
theorem rows_aligned_with_headers
    (d : SubmitData) (rows : List Row) (now : String) (res : SaveResult)
    (rows2 : List Row) (hsave : saveGradeEntry d rows now = some (res, rows2))
    (hrows : ∀ r ∈ rows, r.length = getHeaders.length) :
    (rowData d now).length = getHeaders.length
    ∧ getHeaders.length = 16
    ∧ ∀ r ∈ rows2, r.length = getHeaders.length := by
  refine ⟨rfl, rfl, ?_⟩
  match hsk : d.skills with
  | none => rw [saveGradeEntry] at hsave; rw [hsk] at hsave; exact absurd hsave (by simp)
  | some sk =>
    rw [saveGradeEntry_eq d rows now sk hsk] at hsave
    have hrows2 : rows2 = upsert
        (fun r => keyMatches r (cellOf d.student) (cellOf d.course)) (rowData d now) rows := by
      have := hsave
      injection this with h1
      injection h1 with h2 h3
      exact h3.symm
    intro r hr
    rw [hrows2] at hr
    rcases mem_upsert _ _ _ _ hr with hm | rfl | ⟨old, hold, rfl⟩
    · exact hrows r hm
    · rfl
    · rw [setValuesRow_of_le old _ (le_of_eq (hrows old hold))]
      rfl

/-- Witness for C10 at a concrete save on a store already holding one
schema-aligned row. -/
theorem rows_aligned_with_headers_witness :
    (∃ res rows2, saveGradeEntry sampleData [rowData sampleData "t0"] "t1" = some (res, rows2)
      ∧ (rowData sampleData "t1").length = getHeaders.length
      ∧ getHeaders.length = 16
      ∧ ∀ r ∈ rows2, r.length = getHeaders.length) := by
  match hsave : saveGradeEntry sampleData [rowData sampleData "t0"] "t1" with
  | none => exact absurd hsave (by decide)
  | some (res, rows2) =>
    have h := rows_aligned_with_headers sampleData [rowData sampleData "t0"] "t1" res rows2
      hsave (by decide)
    exact ⟨res, rows2, rfl, h⟩

/-- C2 (code bug): `doPost` never invokes `validateData`.  On a submission
whose `grade` field is absent, `validateData` reports an error, yet `doPost`
appends the row to the store and answers with the success envelope instead
of rejecting the request before any mutation. -/
theorem doPost_skips_validation_bug :
    validateData ({ sampleData with grade := none } : SubmitData) = ["Grade is required"]
    ∧ (doPost ({ sampleData with grade := none } : SubmitData) [] "t1").2 =
        [rowData ({ sampleData with grade := none } : SubmitData) "t1"]
    ∧ (doPost ({ sampleData with grade := none } : SubmitData) [] "t1").1 =
        PostResponse.ok { success := true, action := "created",
                          student := some "Alice", course := some "Math 7A" } := by
  exact ⟨by decide, by decide, by decide⟩

/-- C3 (code bug): `rowToObject` stores the Student Name cell under the key
`student_name`, while `getEntriesByStudent` filters on `entry.student`,
which is therefore always `undefined` and never strictly equal to a string;
the filter matches nothing, for every store and every queried name — even
when a stored row's Student Name cell equals the query exactly. -/
theorem getEntriesByStudent_always_empty_bug :
    (∀ (rows : List Row) (s : String), getEntriesByStudent rows s = [])
    ∧ getField (rowToObject getHeaders (rowData sampleData "t0")) "student" = Cell.undef
    ∧ getField (rowToObject getHeaders (rowData sampleData "t0")) "student_name" =
        Cell.str "Alice"
    ∧ getEntriesByStudent [rowData sampleData "t0"] "Alice" = [] := by
  have huniv : ∀ (rows : List Row) (s : String), getEntriesByStudent rows s = [] := by
    intro rows s
    induction rows with
    | nil => rfl
    | cons r rs ih =>
      have h0 : jsStrictEq (getField (rowToObject getHeaders r) "student") (Cell.str s)
          = false := rfl
      simp only [getEntriesByStudent, getAllEntries, List.map_cons, List.filter_cons, h0,
        Bool.false_eq_true, if_false] at ih ⊢
      exact ih
  exact ⟨huniv, rfl, rfl, huniv [rowData sampleData "t0"] "Alice"⟩

/-- C5 (counterexample): the `||` defaulting of the optional numeric fields
sends a recorded zero and an absent value to the same cell, the empty
string — "recorded as zero" and "not recorded" are not distinguishable in
the stored row, for any of percentageMark, classesMissed, timesLate. -/
theorem zero_vs_absent_counterexample :
    sampleZero.percentageMark = some 0 ∧ sampleAbsentNums.percentageMark = none
    ∧ (rowData sampleZero "t0").getD 5 Cell.undef = (rowData sampleAbsentNums "t0").getD 5 Cell.undef
    ∧ (rowData sampleZero "t0").getD 5 Cell.undef = Cell.str ""
    ∧ (rowData sampleZero "t0").getD 6 Cell.undef = (rowData sampleAbsentNums "t0").getD 6 Cell.undef
    ∧ (rowData sampleZero "t0").getD 7 Cell.undef = (rowData sampleAbsentNums "t0").getD 7 Cell.undef := by
  exact ⟨by decide, by decide, by decide, by decide, by decide, by decide⟩

/-- C5 (amended): an absent percentageMark, classesMissed or timesLate maps
to the empty string — and so does a recorded zero, which is therefore not
distinguishable from absent; only nonzero recorded values stay numeric
cells. -/
theorem numeric_defaulting_amended (d : SubmitData) (now : String) :
    (d.percentageMark = none → (rowData d now).getD 5 Cell.undef = Cell.str "")
    ∧ (d.percentageMark = some 0 → (rowData d now).getD 5 Cell.undef = Cell.str "")
    ∧ (∀ v : Int, d.percentageMark = some v → v ≠ 0 →
        (rowData d now).getD 5 Cell.undef = Cell.num v)
    ∧ (d.classesMissed = none → (rowData d now).getD 6 Cell.undef = Cell.str "")
    ∧ (d.classesMissed = some 0 → (rowData d now).getD 6 Cell.undef = Cell.str "")
    ∧ (∀ v : Int, d.classesMissed = some v → v ≠ 0 →
        (rowData d now).getD 6 Cell.undef = Cell.num v)
    ∧ (d.timesLate = none → (rowData d now).getD 7 Cell.undef = Cell.str "")
    ∧ (d.timesLate = some 0 → (rowData d now).getD 7 Cell.undef = Cell.str "")
    ∧ (∀ v : Int, d.timesLate = some v → v ≠ 0 →
        (rowData d now).getD 7 Cell.undef = Cell.num v) := by
  have h5 : (rowData d now).getD 5 Cell.undef = jsNumOrEmpty d.percentageMark := rfl
  have h6 : (rowData d now).getD 6 Cell.undef = jsNumOrEmpty d.classesMissed := rfl
  have h7 : (rowData d now).getD 7 Cell.undef = jsNumOrEmpty d.timesLate := rfl
  refine ⟨fun h => ?_, fun h => ?_, fun v hv hvne => ?_,
          fun h => ?_, fun h => ?_, fun v hv hvne => ?_,
          fun h => ?_, fun h => ?_, fun v hv hvne => ?_⟩ <;>
    first
    | (rw [h5, h]; simp [jsNumOrEmpty])
    | (rw [h5, hv]; simp [jsNumOrEmpty, hvne])
    | (rw [h6, h]; simp [jsNumOrEmpty])
    | (rw [h6, hv]; simp [jsNumOrEmpty, hvne])
    | (rw [h7, h]; simp [jsNumOrEmpty])
    | (rw [h7, hv]; simp [jsNumOrEmpty, hvne])

/-- Witness for C5-amended at the sample submissions: zero gives the empty
string, 85 stays the number 85. -/
theorem numeric_defaulting_amended_witness :
    sampleZero.percentageMark = some 0
    ∧ (rowData sampleZero "t0").getD 5 Cell.undef = Cell.str ""
    ∧ sampleData.percentageMark = some 85
    ∧ (rowData sampleData "t0").getD 5 Cell.undef = Cell.num 85 := by
  obtain ⟨-, hz, hnz, -⟩ := numeric_defaulting_amended sampleZero "t0"
  obtain ⟨-, -, hv, -⟩ := numeric_defaulting_amended sampleData "t0"
  exact ⟨by decide, hz (by decide), by decide, hv 85 (by decide) (by decide)⟩

/-- C4 (counterexample): the round trip does not reproduce the submission's
field names.  On a submission that passes validation, the record mapped to a
row and back holds the student under `student_name` and the teacher e-mail
under `teacher_email`; the fields `student` and `teacher` of the result are
`undefined`, so the round trip does not reproduce every field of the input
record. -/
theorem roundTrip_counterexample :
    validateData sampleData = []
    ∧ sampleData.student = some "Alice"
    ∧ sampleData.teacher = some "teacher1@school.edu"
    ∧ getField (rowToObject getHeaders (rowData sampleData "t1")) "student" = Cell.undef
    ∧ getField (rowToObject getHeaders (rowData sampleData "t1")) "teacher" = Cell.undef := by
  exact ⟨by decide, by decide, by decide, rfl, rfl⟩

/-- C4 (amended): for a submission carrying its string fields and a skills
object, the round trip through `rowData` and `rowToObject` reproduces every
field value under the snake-case header-derived key (`teacher` under
`teacher_email`, `teacherName` under `teacher_name`, `student` under
`student_name`, `course` and `comment` under their own names), reproduces
each declared skill's nonempty rating inside the nested skills object, maps
the numeric fields through the script's `||` defaulting, keeps a present
nonempty `timestamp`, and refreshes `last_modified`. -/
theorem roundTrip_amended (d : SubmitData) (now : String)
    (te tn c st cm : String) (sk : List (String × String))
    (hte : d.teacher = some te) (htn : d.teacherName = some tn)
    (hc : d.course = some c) (hst : d.student = some st)
    (hcm : d.comment = some cm) (hsk : d.skills = some sk) :
    getField (rowToObject getHeaders (rowData d now)) "teacher_email" = Cell.str te
    ∧ getField (rowToObject getHeaders (rowData d now)) "teacher_name" = Cell.str tn
    ∧ getField (rowToObject getHeaders (rowData d now)) "course" = Cell.str c
    ∧ getField (rowToObject getHeaders (rowData d now)) "student_name" = Cell.str st
    ∧ getField (rowToObject getHeaders (rowData d now)) "comment" = Cell.str cm
    ∧ getField (rowToObject getHeaders (rowData d now)) "percentage_mark"
        = jsNumOrEmpty d.percentageMark
    ∧ getField (rowToObject getHeaders (rowData d now)) "classes_missed"
        = jsNumOrEmpty d.classesMissed
    ∧ getField (rowToObject getHeaders (rowData d now)) "times_late"
        = jsNumOrEmpty d.timesLate
    ∧ (∀ skl v, skl ∈ LEARNING_SKILLS → sk.lookup skl = some v → v ≠ "" →
        getSkill (rowToObject getHeaders (rowData d now)) skl = Cell.str v)
    ∧ getField (rowToObject getHeaders (rowData d now)) "timestamp"
        = Cell.str (jsOrStr d.timestamp now)
    ∧ getField (rowToObject getHeaders (rowData d now)) "last_modified" = Cell.str now := by
  refine ⟨?_, ?_, ?_, ?_, ?_, rfl, rfl, rfl, ?_, rfl, rfl⟩
  · show cellOf d.teacher = Cell.str te
    rw [hte]; rfl
  · show cellOf d.teacherName = Cell.str tn
    rw [htn]; rfl
  · show Cell.str (jsOrStr d.course "") = Cell.str c
    rw [hc, jsOrStr_some_empty]
  · show cellOf d.student = Cell.str st
    rw [hst]; rfl
  · show cellOf d.comment = Cell.str cm
    rw [hcm]; rfl
  · intro skl v hmem hlk hne
    have hmem6 : skl = "Responsibility" ∨ skl = "Organization" ∨ skl = "Independent Work"
        ∨ skl = "Collaboration" ∨ skl = "Initiative" ∨ skl = "Self-Regulation" := by
      simpa [LEARNING_SKILLS] using hmem
    rcases hmem6 with rfl | rfl | rfl | rfl | rfl | rfl <;>
      · show Cell.str (jsOrStr ((d.skills.getD []).lookup _) "") = Cell.str v
        rw [hsk, Option.getD_some, hlk, jsOrStr_some_of_ne v "" hne]

/-- Witness for C4-amended at the sample submission. -/
theorem roundTrip_amended_witness :
    getField (rowToObject getHeaders (rowData sampleData "t1")) "teacher_email"
      = Cell.str "teacher1@school.edu"
    ∧ getField (rowToObject getHeaders (rowData sampleData "t1")) "student_name"
      = Cell.str "Alice"
    ∧ getSkill (rowToObject getHeaders (rowData sampleData "t1")) "Responsibility"
      = Cell.str "Excellent" := by
  obtain ⟨h1, -, -, h4, -, -, -, -, h9, -, -⟩ :=
    roundTrip_amended sampleData "t1" "teacher1@school.edu" "Ms. Johnson" "Math 7A"
      "Alice" "Great progress this term." sampleSkills rfl rfl rfl rfl rfl rfl
  exact ⟨h1, h4, h9 "Responsibility" "Excellent" (by decide) (by decide) (by decide)⟩

theorem jsIncludesChar_eq_any (cs : List Char) (ch : Char) :
    jsIncludesChar cs ch = cs.any (fun c => c == ch) := by
  induction cs with
  | nil => rfl
  | cons c cs ih => simp [jsIncludesChar, List.any_cons, ih]

theorem escapeCond_eq (cs : List Char) :
    (jsIncludesChar cs ',' || jsIncludesChar cs '"' || jsIncludesChar cs '\n')
      = cs.any (fun ch => ch == ',' || ch == '"' || ch == '\n') := by
  rw [jsIncludesChar_eq_any, jsIncludesChar_eq_any, jsIncludesChar_eq_any, Bool.eq_iff_iff]
  simp only [Bool.or_eq_true, List.any_eq_true]
  constructor
  · rintro ((⟨x, hx, hc⟩ | ⟨x, hx, hc⟩) | ⟨x, hx, hc⟩) <;> exact ⟨x, hx, by simp [hc]⟩
  · rintro ⟨x, hx, (hc | hc) | hc⟩
    · exact Or.inl (Or.inl ⟨x, hx, hc⟩)
    · exact Or.inl (Or.inr ⟨x, hx, hc⟩)
    · exact Or.inr ⟨x, hx, hc⟩

theorem escQuotes_eq_flatten (cs : List Char) :
    escQuotes cs = (cs.map (fun ch => if ch = '"' then ['"', '"'] else [ch])).flatten := by
  induction cs with
  | nil => rfl
  | cons c cs ih =>
    by_cases h : c = '"' <;> simp [escQuotes, h, ih]

theorem escapeCell_eq_spec (c : Cell) : escapeCell c = specEscape (cellToString c) := by
  simp only [escapeCell, specEscape, escapeCond_eq, escQuotes_eq_flatten]

theorem csvSpecRender_cons (row : Row) (rest : List Row) :
    csvSpecRender (row :: rest) =
      joinComma (row.map escapeCell) ++ "\n" ++ csvSpecRender rest := by
  have hfun : (fun c => specEscape (cellToString c)) = escapeCell :=
    funext (fun c => (escapeCell_eq_spec c).symm)
  simp only [csvSpecRender, hfun]

theorem exportFold_eq (l : List Row) (acc : String) :
    l.foldl (fun csv row => csv ++ joinComma (row.map escapeCell) ++ "\n") acc
      = acc ++ csvSpecRender l := by
  induction l generalizing acc with
  | nil => simp [csvSpecRender, String.append_empty]
  | cons row rest ih =>
    rw [List.foldl_cons, ih, csvSpecRender_cons, ← String.append_assoc,
      ← String.append_assoc]

theorem csvSpecRender_trailing (l : List Row) (hl : l ≠ []) :
    ∃ s, csvSpecRender l = s ++ "\n" := by
  induction l with
  | nil => exact absurd rfl hl
  | cons row rest ih =>
    rcases List.eq_nil_or_concat rest with hrest | _
    · subst hrest
      refine ⟨joinComma (row.map (fun c => specEscape (cellToString c))), ?_⟩
      simp only [csvSpecRender, String.append_empty]
    · have hne : rest ≠ [] := by
        rintro rfl
        simp_all
      obtain ⟨s, hs⟩ := ih hne
      refine ⟨joinComma (row.map (fun c => specEscape (cellToString c))) ++ "\n" ++ s, ?_⟩
      rw [csvSpecRender, hs, ← String.append_assoc]

/-- C6: `exportToCsv` renders the table (header plus data rows) exactly as
the spec's rule prescribes — each row's cells escaped (wrapped in double
quotes with inner quotes doubled when they contain a comma, double quote or
newline, verbatim otherwise), comma-joined in order and newline-terminated —
and its output always ends with a trailing newline after the last row. -/
theorem exportToCsv_meets_spec (rows : List Row) :
    exportToCsv rows = csvSpecRender (fullTable rows)
    ∧ ∃ s, exportToCsv rows = s ++ "\n" := by
  have heq : exportToCsv rows = csvSpecRender (fullTable rows) := by
    rw [exportToCsv, exportFold_eq, String.empty_append]
  refine ⟨heq, ?_⟩
  obtain ⟨s, hs⟩ := csvSpecRender_trailing (fullTable rows) (by simp [fullTable])
  exact ⟨s, heq.trans hs⟩

theorem getField_comment_cell (r : Row) :
    getField (rowToObject getHeaders r) "comment" = r.getD 14 Cell.undef := rfl

theorem total_comment_len (rows : List Row) (a : Nat)
    (h : ∀ r ∈ rows, commentCellOk (r.getD 14 Cell.undef) = true) :
    (getAllEntries rows).foldl (fun acc e => addLen acc (getField e "comment")) (some a)
      = some (a + (rows.map (fun r => specCommentLen (r.getD 14 Cell.undef))).sum) := by
  induction rows generalizing a with
  | nil => simp [getAllEntries]
  | cons r rs ih =>
    have hr := h r (by simp)
    have hlen : jsCommentLen (r.getD 14 Cell.undef)
        = some (specCommentLen (r.getD 14 Cell.undef)) := by
      cases hcell : r.getD 14 Cell.undef with
      | str s => rfl
      | undef => rfl
      | num n =>
        rw [hcell] at hr
        simp only [commentCellOk, decide_eq_true_eq] at hr
        simp [jsCommentLen, specCommentLen, hr]
    simp only [getAllEntries, List.map_cons, List.foldl_cons, getField_comment_cell]
    have hstep : addLen (some a) (r.getD 14 Cell.undef)
        = some (a + specCommentLen (r.getD 14 Cell.undef)) := by
      unfold addLen
      rw [hlen]
    rw [hstep]
    have htail : ∀ r2 ∈ rs, commentCellOk (r2.getD 14 Cell.undef) = true :=
      fun r2 hr2 => h r2 (by simp [hr2])
    rw [show (List.map (fun r => rowToObject getHeaders r) rs) = getAllEntries rs from rfl,
      ih (a + specCommentLen (r.getD 14 Cell.undef)) htail, List.sum_cons, Nat.add_assoc]

/-- C7: the summary's `averageCommentLength` is the sum of the entries'
comment lengths (an absent comment counting as 0) divided by the entry
count and rounded to the nearest integer (`Math.round`, ties up), and it is
0 for an empty store with no division-by-zero fault; the rounding bound
`|2·total − 2·n·avg| ≤ n` makes "nearest" precise. -/
theorem summary_avg_comment_length (rows : List Row)
    (h : ∀ r ∈ rows, commentCellOk (r.getD 14 Cell.undef) = true) :
    (generateSummaryReport rows).averageCommentLength
      = some (if rows.length = 0 then 0
              else jsMathRoundDiv
                ((rows.map (fun r => specCommentLen (r.getD 14 Cell.undef))).sum)
                rows.length)
    ∧ (∀ t n, 0 < n → 2 * n * jsMathRoundDiv t n ≤ 2 * t + n
        ∧ 2 * t ≤ 2 * n * jsMathRoundDiv t n + n) := by
  constructor
  · by_cases hz : rows = []
    · subst hz; rfl
    · have hlen : 0 < rows.length := List.length_pos.mpr hz
      have hlen2 : (getAllEntries rows).length = rows.length := List.length_map _ _
      dsimp only [generateSummaryReport]
      rw [hlen2, total_comment_len rows 0 h, if_pos hlen, Option.map_some', Nat.zero_add,
        if_neg (by omega)]
  · intro t n hn
    have hdm := Nat.div_add_mod (2 * t + n) (2 * n)
    have hmod : (2 * t + n) % (2 * n) < 2 * n := Nat.mod_lt _ (by omega)
    unfold jsMathRoundDiv
    omega

/-- Witness for C7 at three rows with comment lengths 10, 20 and 30: the
average is 20; and at the empty store: the average is 0. -/
theorem summary_avg_comment_length_witness :
    (generateSummaryReport
        [rowData { sampleData with comment := some "aaaaaaaaaa" } "t0",
         rowData { sampleData with comment := some "bbbbbbbbbbbbbbbbbbbb" } "t0",
         rowData { sampleData with comment := some "cccccccccccccccccccccccccccccc" } "t0"]
      ).averageCommentLength = some 20
    ∧ (generateSummaryReport []).averageCommentLength = some 0 := by
  have h3 := summary_avg_comment_length
    [rowData { sampleData with comment := some "aaaaaaaaaa" } "t0",
     rowData { sampleData with comment := some "bbbbbbbbbbbbbbbbbbbb" } "t0",
     rowData { sampleData with comment := some "cccccccccccccccccccccccccccccc" } "t0"]
    (by decide)
  have h0 := summary_avg_comment_length [] (by intro r hr; exact absurd hr (List.not_mem_nil r))
  constructor
  · rw [h3.1]; decide
  · rw [h0.1]; rfl

theorem mem_skillsFold (sk : List (String × String)) (L : List String) (m : String)
    (hm : m ∈ L.foldr (fun skill acc =>
        (if jsFalsyStr (sk.lookup skill) then [skill ++ " rating is required"] else []) ++ acc)
      []) :
    ∃ skill ∈ L, m = skill ++ " rating is required" := by
  induction L with
  | nil => exact absurd hm (List.not_mem_nil m)
  | cons s L ih =>
    rw [List.foldr_cons] at hm
    rcases List.mem_append.mp hm with hm1 | hm2
    · refine ⟨s, by simp, ?_⟩
      by_cases hf : jsFalsyStr (sk.lookup s) = true
      · simpa [hf] using hm1
      · simp only [Bool.not_eq_true] at hf
        simp [hf] at hm1
    · obtain ⟨skill, hskill, rfl⟩ := ih hm2
      exact ⟨skill, by simp [hskill], rfl⟩

theorem mem_preErrors_pool (d : SubmitData) (m : String) (hm : m ∈ preErrors d) :
    m ∈ preErrorPool := by
  simp only [preErrors, List.mem_append] at hm
  rcases hm with ((hm | hm) | hm) | hm
  · by_cases hf : jsFalsyStr d.teacher = true
    · simp only [hf, if_true, reduceIte, List.mem_singleton] at hm
      subst hm; decide
    · simp only [Bool.not_eq_true] at hf
      simp [hf] at hm
  · by_cases hf : jsFalsyStr d.student = true
    · simp only [hf, if_true, reduceIte, List.mem_singleton] at hm
      subst hm; decide
    · simp only [Bool.not_eq_true] at hf
      simp [hf] at hm
  · by_cases hf : jsFalsyStr d.grade = true
    · simp only [hf, if_true, reduceIte, List.mem_singleton] at hm
      subst hm; decide
    · simp only [Bool.not_eq_true] at hf
      simp [hf] at hm
  · match hsk : d.skills with
    | none =>
      rw [hsk] at hm
      simp only [List.mem_singleton] at hm
      subst hm; decide
    | some sk =>
      rw [hsk] at hm
      obtain ⟨skill, hskill, rfl⟩ := mem_skillsFold sk LEARNING_SKILLS m hm
      have : skill ++ " rating is required" ∈
          LEARNING_SKILLS.map (fun skill => skill ++ " rating is required") :=
        List.mem_map.mpr ⟨skill, hskill, rfl⟩
      exact List.mem_append_right _ this

theorem comment_msgs_not_pre (d : SubmitData) (m : String) (hm : m ∈ preErrors d) :
    m ≠ "Comment is required" ∧ m ≠ "Comment must be 500 characters or less" := by
  have hp := mem_preErrors_pool d m hm
  constructor <;> rintro rfl <;> revert hp <;> decide

/-- C8: `validateData` yields at most one comment-related error: an absent
or empty comment yields only the presence error (no length check runs); a
present nonempty comment of at most 500 characters yields no comment error,
and one longer than 500 characters yields only the length-specific error. -/
theorem validateData_comment_errors (d : SubmitData) :
    (jsFalsyStr d.comment = true →
      "Comment is required" ∈ validateData d
      ∧ "Comment must be 500 characters or less" ∉ validateData d)
    ∧ (∀ cm, d.comment = some cm → cm ≠ "" →
        (cm.length ≤ 500 →
          "Comment is required" ∉ validateData d
          ∧ "Comment must be 500 characters or less" ∉ validateData d)
        ∧ (500 < cm.length →
          "Comment must be 500 characters or less" ∈ validateData d
          ∧ "Comment is required" ∉ validateData d))
    ∧ (validateData d).countP
        (fun m => m == "Comment is required"
          || m == "Comment must be 500 characters or less") ≤ 1 := by
  have hpre : ∀ m, m ∈ preErrors d →
      m ≠ "Comment is required" ∧ m ≠ "Comment must be 500 characters or less" :=
    fun m hm => comment_msgs_not_pre d m hm
  refine ⟨?_, ?_, ?_⟩
  · intro hf
    have hce : commentErrors d = ["Comment is required"] := by
      match hcm : d.comment with
      | none => simp [commentErrors, hcm]
      | some cm =>
        rw [hcm] at hf
        simp only [jsFalsyStr, decide_eq_true_eq] at hf
        simp [commentErrors, hcm, hf]
    constructor
    · exact List.mem_append_right _ (by rw [hce]; simp)
    · intro hmem
      rcases List.mem_append.mp hmem with hm | hm
      · exact (hpre _ hm).2 rfl
      · rw [hce] at hm
        simp at hm
  · intro cm hcm hne
    have hnf : (cm = "") = False := by simp [hne]
    constructor
    · intro hle
      have hce : commentErrors d = [] := by
        simp [commentErrors, hcm, hne, Nat.not_lt.mpr hle]
      constructor <;> intro hmem <;> rcases List.mem_append.mp hmem with hm | hm
      · exact (hpre _ hm).1 rfl
      · rw [hce] at hm; exact absurd hm (List.not_mem_nil _)
      · exact (hpre _ hm).2 rfl
      · rw [hce] at hm; exact absurd hm (List.not_mem_nil _)
    · intro hgt
      have hce : commentErrors d = ["Comment must be 500 characters or less"] := by
        simp [commentErrors, hcm, hne, hgt]
      constructor
      · exact List.mem_append_right _ (by rw [hce]; simp)
      · intro hmem
        rcases List.mem_append.mp hmem with hm | hm
        · exact (hpre _ hm).1 rfl
        · rw [hce] at hm
          simp at hm
  · rw [validateData, List.countP_append]
    have h1 : (preErrors d).countP
        (fun m => m == "Comment is required"
          || m == "Comment must be 500 characters or less") = 0 := by
      rw [List.countP_eq_zero]
      intro m hm
      have := hpre m hm
      simp [this.1, this.2]
    have h2 : (commentErrors d).countP
        (fun m => m == "Comment is required"
          || m == "Comment must be 500 characters or less") ≤ 1 := by
      refine le_trans (List.countP_le_length _) ?_
      match hcm : d.comment with
      | none => simp [commentErrors, hcm]
      | some cm =>
        by_cases hz : cm = ""
        · simp [commentErrors, hcm, hz]
        · by_cases hgt : 500 < cm.length <;> simp [commentErrors, hcm, hz, hgt]
    omega

set_option maxRecDepth 4000 in
/-- Witness for C8 at concrete comments of length 500 and 501, and at an
absent comment. -/
theorem validateData_comment_errors_witness :
    ("Comment is required" ∉
        validateData { sampleData with comment := some (String.mk (List.replicate 500 'a')) }
      ∧ "Comment must be 500 characters or less" ∉
        validateData { sampleData with comment := some (String.mk (List.replicate 500 'a')) })
    ∧ ("Comment must be 500 characters or less" ∈
        validateData { sampleData with comment := some (String.mk (List.replicate 501 'a')) }
      ∧ "Comment is required" ∉
        validateData { sampleData with comment := some (String.mk (List.replicate 501 'a')) })
    ∧ "Comment is required" ∈ validateData { sampleData with comment := none } := by
  have h500 := (validateData_comment_errors
      { sampleData with comment := some (String.mk (List.replicate 500 'a')) }).2.1
    (String.mk (List.replicate 500 'a')) rfl (by decide)
  have h501 := (validateData_comment_errors
      { sampleData with comment := some (String.mk (List.replicate 501 'a')) }).2.1
    (String.mk (List.replicate 501 'a')) rfl (by decide)
  have habs := (validateData_comment_errors { sampleData with comment := none }).1 (by decide)
  exact ⟨h500.1 (by decide), h501.2 (by decide), habs.1⟩

end GradesReport
